import Mathlib

/-!
Verification of the Arideo rendering/mixing engine
(src/components/VideoPreview.tsx, src/types.ts).

Times, durations and canvas coordinates are embedded as rationals (ℚ);
buffer sample counts as naturals.  Maps keyed by ids are embedded as
functions into Option.  Canvas 2D drawing is embedded as the list of
draw commands issued, each carrying the globalAlpha in force when it was
issued.  Decimal constants of the source appear as the equal rationals
(0.5 = 1/2, 0.2 = 1/5, 1.15 = 23/20, 1.2 = 6/5, 0.9 = 9/10, ...).
-/

namespace Arideo

/-- Cubic ease-in-out, VideoPreview.tsx line 52:
`x < 0.5 ? 4 * x * x * x : 1 - Math.pow(-2 * x + 2, 3) / 2`. -/
def easeInOutCubic (x : ℚ) : ℚ :=
  if x < 1/2 then 4 * x ^ 3 else 1 - (-2 * x + 2) ^ 3 / 2

/-- Clamp to [0,1], the `Math.max(0, Math.min(1, _))` pattern of
VideoPreview.tsx line 98. -/
def clamp01 (v : ℚ) : ℚ := max 0 (min 1 v)

/-- Scene crossfade length in seconds, VideoPreview.tsx line 51
(`FADE_DURATION = 0.5`). -/
def FADE_DURATION : ℚ := 1/2

/-- V1 export transition length in seconds, VideoPreview.tsx line 598
(`TRANSITION_DURATION = 0.5`). -/
def TRANSITION_DURATION : ℚ := 1/2

/-- Background-music gain, the `0.2` of
`musicGain.gain.setValueAtTime(0.2, 0)` (VideoPreview.tsx line 515). -/
def MUSIC_GAIN : ℚ := 1/5

/-! ## Active-scene resolution

Both the playback render loop (VideoPreview.tsx lines 421-428) and the
export frame loops (lines 603-604 and 629-630) run the same loop:

```
let currentSceneIdx = 0, timeIntoScene = 0, sceneStartTime = 0;
for (let i = 0; i < segmentDurations.length; i++) {
  if (elapsed < sceneStartTime + segmentDurations[i]) {
    currentSceneIdx = i; timeIntoScene = elapsed - sceneStartTime; break;
  } sceneStartTime += segmentDurations[i];
}
```

On fall-through (no break) the initial values `(0, 0)` survive. -/

/-- One step of the scene-resolution loop, carrying the running index and
the accumulated `sceneStartTime`. -/
def resolveSceneAux (elapsed : ℚ) : List ℚ → ℕ → ℚ → ℕ × ℚ
  | [], _, _ => (0, 0)
  | d :: rest, i, sceneStartTime =>
      if elapsed < sceneStartTime + d then (i, elapsed - sceneStartTime)
      else resolveSceneAux elapsed rest (i + 1) (sceneStartTime + d)

/-- The scene-resolution loop: returns `(currentSceneIdx, timeIntoScene)`
for a global elapsed time against the per-scene duration list. -/
def resolveActiveScene (segmentDurations : List ℚ) (elapsed : ℚ) : ℕ × ℚ :=
  resolveSceneAux elapsed segmentDurations 0 0

/-- Sum of the durations of the scenes before index `i`
(the `sceneStartTime` accumulated when the loop reaches scene `i`). -/
def cumulativeDurationBefore (segmentDurations : List ℚ) (i : ℕ) : ℚ :=
  ((segmentDurations.take i).sum)

/-! ## Layout-V2 data model (src/types.ts lines 11-49) -/

/-- Entrance animation kinds of `ElementAnimation.type` (types.ts line 12). -/
inductive EntranceKind where
  | fadeIn | slideInLeft | slideInRight | slideInTop | slideInBottom
  | zoomIn | zoomOut | scaleUp | rotateIn
deriving DecidableEq

/-- Exit animation kinds (types.ts line 16). -/
inductive ExitKind where
  | fadeOut | slideOutLeft | slideOutRight | slideOutTop | slideOutBottom | zoomOut
deriving DecidableEq

/-- The optional `exit` record of an `ElementAnimation` (types.ts lines 15-19). -/
structure ExitAnimation where
  type : ExitKind
  start : ℚ
  duration : ℚ
deriving DecidableEq

/-- `ElementAnimation` (types.ts lines 11-20). -/
structure ElementAnimation where
  type : EntranceKind
  start : ℚ
  duration : ℚ
  exit : Option ExitAnimation := none
deriving DecidableEq

/-- Horizontal text alignment values (types.ts line 31). -/
inductive TextAlignKind where
  | left | center | right
deriving DecidableEq

/-- Vertical text alignment values (types.ts line 32). -/
inductive VerticalAlignKind where
  | top | middle | bottom
deriving DecidableEq

/-- The `style` record of a `SceneElement` (types.ts lines 27-34). -/
structure ElementStyle where
  fontFamily : Option String := none
  fontSize : Option ℚ := none
  color : Option String := none
  textAlign : Option TextAlignKind := none
  verticalAlign : Option VerticalAlignKind := none
  fontWeight : Option String := none
deriving DecidableEq

/-- Element kind, `'image' | 'text'` (types.ts line 24). -/
inductive ElementKind where
  | image | text
deriving DecidableEq

/-- The `layout` record of a `SceneElement`, percentages of the frame
(types.ts lines 35-40). -/
structure ElementLayout where
  x : ℚ
  y : ℚ
  width : ℚ
  height : ℚ
deriving DecidableEq

/-- `SceneElement` (types.ts lines 22-42); the `prompt` field plays no
role in rendering and is omitted. -/
structure SceneElement where
  id : String
  type : ElementKind
  text : Option String := none
  style : ElementStyle
  layout : ElementLayout
  animation : ElementAnimation
deriving DecidableEq

/-- `ScriptSegmentV2` (types.ts lines 44-49); the optional `voice` field
plays no role in rendering and is omitted. -/
structure ScriptSegmentV2 where
  id : String
  narration : String
  elements : List SceneElement
deriving DecidableEq

/-- The entrance progress of VideoPreview.tsx line 98:
`Math.max(0, Math.min(1, (time - animation.start) / animation.duration))`. -/
def entranceProgress (animation : ElementAnimation) (time : ℚ) : ℚ :=
  clamp01 ((time - animation.start) / animation.duration)

/-! ## Canvas draw commands

A frame's raster content is embedded as the ordered list of draw
commands issued against the 2D context, each carrying the `globalAlpha`
in force when it was issued; identical command lists rasterize to
byte-identical surfaces. -/

/-- One draw command: either `ctx.drawImage` with the final destination
rectangle, or one `ctx.fillText` line of wrapped text (the line as its
word list) at its anchor point. -/
inductive DrawCmd where
  | image (id : String) (alpha x y w h : ℚ)
  | textLine (line : List String) (alpha x y : ℚ)
deriving DecidableEq

/-- Some alpha value a draw command was issued with. -/
def DrawCmd.alphaOf : DrawCmd → ℚ
  | .image _ a _ _ _ _ => a
  | .textLine _ a _ _ => a

/-- JavaScript `text.split(' ')`: split on every single space, keeping
empty fragments, over the character list. -/
def splitOnSpaceAux : List Char → List Char → List String
  | [], acc => [String.mk acc.reverse]
  | c :: rest, acc =>
      if c = ' ' then String.mk acc.reverse :: splitOnSpaceAux rest []
      else splitOnSpaceAux rest (c :: acc)

/-- JavaScript `text.split(' ')` on a string. -/
def splitWords (s : String) : List String := splitOnSpaceAux s.toList []

/-- The greedy word-wrap loop shared by `drawWrappedText`
(VideoPreview.tsx lines 59-68) and `drawCaption` (lines 558-566), at the
word level: `tooWide` is the `ctx.measureText(testLine).width > maxWidth`
test on a candidate line, and the third argument tracks the `n > 0`
guard (the very first word never starts a new line). -/
def wrapWordsAux (tooWide : List String → Bool) :
    List String → List String → Bool → List (List String)
  | [], line, _ => [line]
  | w :: rest, line, isFirstWord =>
      let testLine := line ++ [w]
      if tooWide testLine && !isFirstWord then
        line :: wrapWordsAux tooWide rest [w] false
      else
        wrapWordsAux tooWide rest testLine false

/-- Greedy word-wrap of a word list into lines. -/
def wrapWords (tooWide : List String → Bool) (words : List String) :
    List (List String) :=
  wrapWordsAux tooWide words [] true

/-- `drawWrappedText` (VideoPreview.tsx lines 54-80): wrap the text to
`maxWidth` under the measure function, shift the block up for
`middle`/`bottom` vertical alignment, and emit one `fillText` command
per line; `alpha` is the `globalAlpha` in force at the call. -/
def drawWrappedText (measure : List String → ℚ) (alpha : ℚ) (text : String)
    (x y maxWidth lineHeight : ℚ) (vAlign : Option VerticalAlignKind) :
    List DrawCmd :=
  let lines := wrapWords (fun testLine => measure testLine > maxWidth) (splitWords text)
  let startY : ℚ :=
    match vAlign with
    | some .middle => y - ((lines.length : ℚ) - 1) * lineHeight / 2
    | some .bottom => y - ((lines.length : ℚ) - 1) * lineHeight
    | _ => y
  lines.enum.map (fun p => DrawCmd.textLine p.2 alpha x (startY + (p.1 : ℚ) * lineHeight))

/-- The body of `drawScene`'s `forEach` (VideoPreview.tsx lines 96-188)
for the element at list position `elementIndex` of the target scene.
`images` maps an element id to the natural dimensions of its decoded
image (none if not loaded), `measure` is the text measure, and
`ctxAlpha` is the `globalAlpha` the caller had set: the source
assigns `ctx.globalAlpha = 1.0` (line 111) before drawing, so
`ctxAlpha` never reaches a draw command. -/
def drawElement (canvasWidth canvasHeight : ℚ)
    (images : String → Option (ℚ × ℚ)) (measure : List String → ℚ)
    (ctxAlpha : ℚ) (elementIndex : ℕ) (element : SceneElement) (time : ℚ) :
    List DrawCmd :=
  let animation := element.animation
  let layout := element.layout
  let style := element.style
  let animProgress := entranceProgress animation time
  if animProgress ≤ 0 then [] else
  let easedProgress := easeInOutCubic animProgress
  let x := layout.x / 100 * canvasWidth
  let y := layout.y / 100 * canvasHeight
  let w := layout.width / 100 * canvasWidth
  let h := layout.height / 100 * canvasHeight
  let alpha : ℚ :=
    match animation.type with
    | .fadeIn => easedProgress
    | _ => 1
  let currentX : ℚ :=
    match animation.type with
    | .slideInLeft => x - w * (1 - easedProgress)
    | .slideInRight => x + w * (1 - easedProgress)
    | _ => x
  let currentY : ℚ :=
    match animation.type with
    | .slideInTop => y - h * (1 - easedProgress)
    | .slideInBottom => y + h * (1 - easedProgress)
    | _ => y
  match element.type with
  | .image =>
    match images element.id with
    | none => []
    | some dims =>
      let imgAspect := dims.1 / dims.2
      let layoutAspect := w / h
      let fit : ℚ × ℚ × ℚ × ℚ :=
        if elementIndex = 0 then
          if imgAspect > layoutAspect then
            (currentX + (w - h * imgAspect) / 2, currentY, h * imgAspect, h)
          else
            (currentX, currentY + (h - w / imgAspect) / 2, w, w / imgAspect)
        else
          if imgAspect > layoutAspect then
            (currentX, currentY + (h - w / imgAspect) / 2, w, w / imgAspect)
          else
            (currentX + (w - h * imgAspect) / 2, currentY, h * imgAspect, h)
      let renderX := fit.1
      let renderY := fit.2.1
      let renderW := fit.2.2.1
      let renderH := fit.2.2.2
      match animation.type with
      | .zoomIn =>
        let scale := 1 + easedProgress * (1/10)
        let scaledW := renderW * scale
        let scaledH := renderH * scale
        [DrawCmd.image element.id alpha (renderX - (scaledW - renderW) / 2)
          (renderY - (scaledH - renderH) / 2) scaledW scaledH]
      | _ => [DrawCmd.image element.id alpha renderX renderY renderW renderH]
  | .text =>
    match element.text with
    | none => []
    | some txt =>
      let fontSize := (style.fontSize.getD 5) / 100 * canvasHeight
      let textX := currentX +
        (match style.textAlign with
         | some .center => w / 2
         | some .right => w
         | _ => 0)
      let textY := currentY + h / 2
      drawWrappedText measure alpha txt textX textY w (fontSize * (6/5)) style.verticalAlign

/-- `drawScene` (VideoPreview.tsx lines 95-189): draw every element of
the target scene in list order at the given scene-local time. -/
def drawScene (canvasWidth canvasHeight : ℚ)
    (images : String → Option (ℚ × ℚ)) (measure : List String → ℚ)
    (ctxAlpha : ℚ) (targetScene : ScriptSegmentV2) (time : ℚ) : List DrawCmd :=
  targetScene.elements.enum.flatMap
    (fun p => drawElement canvasWidth canvasHeight images measure ctxAlpha p.1 p.2 time)

/-- `drawV2Frame` (VideoPreview.tsx lines 82-204): resolve the scene
duration from the voiceover map, and during the final `FADE_DURATION`
of the scene (when a next scene exists) draw both scenes, setting
`globalAlpha` to `1 - transitionProgress` before the outgoing scene and
to `transitionProgress` before the incoming one. -/
def drawV2Frame (canvasWidth canvasHeight : ℚ)
    (images : String → Option (ℚ × ℚ)) (voiceoverDurations : String → Option ℚ)
    (measure : List String → ℚ) (scene : ScriptSegmentV2) (timeIntoScene : ℚ)
    (nextScene : Option ScriptSegmentV2) (nextSceneTime : ℚ) : List DrawCmd :=
  let sceneDuration := (voiceoverDurations scene.id).getD 0
  let timeUntilEnd := sceneDuration - timeIntoScene
  match nextScene with
  | some ns =>
    if timeUntilEnd < FADE_DURATION then
      let transitionProgress := (FADE_DURATION - timeUntilEnd) / FADE_DURATION
      drawScene canvasWidth canvasHeight images measure (1 - transitionProgress) scene timeIntoScene
        ++ drawScene canvasWidth canvasHeight images measure transitionProgress ns nextSceneTime
    else
      drawScene canvasWidth canvasHeight images measure 1 scene timeIntoScene
  | none => drawScene canvasWidth canvasHeight images measure 1 scene timeIntoScene

/-! ## Layout V1: Ken-Burns export renderer
(VideoPreview.tsx lines 540-623, duplicated at lines 1003-1116) -/

/-- The fixed Ken-Burns class list, VideoPreview.tsx line 48. -/
def animationClasses : List String :=
  ["ken-burns-in", "ken-burns-out", "ken-burns-pan-right",
   "ken-burns-pan-up", "ken-burns-pan-left", "ken-burns-pan-down"]

/-- The round-robin index computed at VideoPreview.tsx lines 233-235:
`(index * 3 + Math.floor(index / animationClasses.length)) % animationClasses.length`. -/
def kenBurnsKey (index : ℕ) : ℕ :=
  (index * 3 + index / animationClasses.length) % animationClasses.length

/-- Round-robin Ken-Burns assignment, VideoPreview.tsx lines 233-235:
`animationClasses[(index * 3 + Math.floor(index / animationClasses.length)) % animationClasses.length]`. -/
def sceneAnimation (index : ℕ) : String :=
  animationClasses.getD (kenBurnsKey index) ""

/-- JavaScript `String.prototype.includes`: substring containment. -/
def strContains (s pat : String) : Bool :=
  decide (List.IsInfix pat.toList s.toList)

/-- The scale factor of `drawKenBurnsFrame` (VideoPreview.tsx line 587):
`animation.includes('in') ? 1 + progress * 0.1 :
 (animation.includes('out') ? 1.15 - progress * 0.15 : 1.2)`. -/
def drawKenBurnsScale (animation : String) (progress : ℚ) : ℚ :=
  if strContains animation "in" then 1 + progress * (1/10)
  else if strContains animation "out" then 23/20 - progress * (3/20)
  else 6/5

/-- The translate offsets of `drawKenBurnsFrame` (VideoPreview.tsx
lines 588-590), in percent of the canvas size; the four `if`s run in
order, each overwriting its axis. -/
def drawKenBurnsTranslate (animation : String) (progress : ℚ) : ℚ × ℚ :=
  let translateX : ℚ := 0
  let translateY : ℚ := 0
  let translateX := if strContains animation "pan-right" then -5 + progress * 10 else translateX
  let translateX := if strContains animation "pan-left" then 5 - progress * 10 else translateX
  let translateY := if strContains animation "pan-up" then 5 - progress * 10 else translateY
  let translateY := if strContains animation "pan-down" then -5 + progress * 10 else translateY
  (translateX, translateY)

/-- One `drawKenBurnsFrame` call of the V1 export frame loop: which
image it draws, the `globalAlpha` in force, the scene-local progress
passed, and the animation class used. -/
structure KenBurnsDraw where
  imageIndex : ℕ
  alpha : ℚ
  progress : ℚ
  animation : String
deriving DecidableEq

/-- The scene drawing of one V1 export `frameRenderLoop` iteration
(VideoPreview.tsx lines 603-615): resolve the active scene, and when
`timeUntilEnd < TRANSITION_DURATION` and a next image exists draw the
outgoing scene with `ctx.globalAlpha = 1.0` and the incoming scene (at
progress 0) with `ctx.globalAlpha = transitionProgress`; otherwise draw
only the active scene at alpha 1. -/
def frameRenderLoopV1Draws (segmentDurations : List ℚ) (imageCount : ℕ)
    (elapsed : ℚ) : List KenBurnsDraw :=
  let r := resolveActiveScene segmentDurations elapsed
  let currentSceneIndex := r.1
  let timeIntoScene := r.2
  let sceneDuration := segmentDurations.getD currentSceneIndex 0
  let nextSceneIndex := currentSceneIndex + 1
  let animationProgress := if 0 < sceneDuration then timeIntoScene / sceneDuration else 1
  let timeUntilEnd := sceneDuration - timeIntoScene
  if timeUntilEnd < TRANSITION_DURATION ∧ nextSceneIndex < imageCount then
    [⟨currentSceneIndex, 1, animationProgress, sceneAnimation currentSceneIndex⟩,
     ⟨nextSceneIndex, (TRANSITION_DURATION - timeUntilEnd) / TRANSITION_DURATION, 0,
      sceneAnimation nextSceneIndex⟩]
  else
    [⟨currentSceneIndex, 1, animationProgress, sceneAnimation currentSceneIndex⟩]

/-- The caption lines drawn by `drawCaption` (VideoPreview.tsx lines
549-574): the narration split on spaces and greedily wrapped against
`maxTextWidth = canvasWidth * 0.9`.  Every produced line is drawn with
`fillText`; the function receives no scene-local time. -/
def drawCaptionLines (measure : List String → ℚ) (canvasWidth : ℚ)
    (text : String) : List (List String) :=
  wrapWords (fun testLine => measure testLine > canvasWidth * (9/10)) (splitWords text)

/-! ## Audio mix (handleFinalizeAndRender, VideoPreview.tsx lines 495-518)

A narration entry is `some d` (a decoded buffer of duration `d` seconds)
or `none` (`voiceovers.get(segment.id)` missed). -/

/-- Per-scene durations as the component computes them
(`voiceovers.get(s.id)?.duration || 0`, VideoPreview.tsx line 230). -/
def segmentDurationsOf (voiceoverBuffers : List (Option ℚ)) : List ℚ :=
  voiceoverBuffers.map (fun b => b.getD 0)

/-- The total duration (VideoPreview.tsx line 231). -/
def totalDurationOf (voiceoverBuffers : List (Option ℚ)) : ℚ :=
  (segmentDurationsOf voiceoverBuffers).sum

/-- Sample length of the narration `OfflineAudioContext`
(VideoPreview.tsx line 496): `Math.ceil(totalDuration * sampleRate)`. -/
def voiceoverContextLength (voiceoverBuffers : List (Option ℚ)) (sampleRate : ℕ) : ℕ :=
  Nat.ceil (totalDurationOf voiceoverBuffers * sampleRate)

/-- The offsets at which the narration loop (VideoPreview.tsx lines
497-506) starts each buffer: `currentAudioTime` advances by the duration
of each present buffer; a missing buffer schedules nothing. -/
def narrationStartsAux : List (Option ℚ) → ℚ → List (Option ℚ)
  | [], _ => []
  | none :: rest, currentAudioTime => none :: narrationStartsAux rest currentAudioTime
  | some d :: rest, currentAudioTime =>
      some currentAudioTime :: narrationStartsAux rest (currentAudioTime + d)

/-- Start offset of each narration buffer in the offline render. -/
def narrationStarts (voiceoverBuffers : List (Option ℚ)) : List (Option ℚ) :=
  narrationStartsAux voiceoverBuffers 0

/-- A looped buffer source read at sample index `i`
(`musicSource.loop = true`, started at 0: sample `i % length`). -/
def loopedMusicSample (music : List ℚ) (i : ℕ) : ℚ :=
  music.getD (i % music.length) 0

/-- Sample-level content of the second offline pass (VideoPreview.tsx
lines 509-517): the mix context is created with exactly
`voiceoverBuffer.length` frames; the narration source and the looped
music source both start at 0 and sum into the destination, the music
through the constant `MUSIC_GAIN` gain node. -/
def mixWithMusic (narrationSamples music : List ℚ) : List ℚ :=
  (List.range narrationSamples.length).map
    (fun i => narrationSamples.getD i 0 + MUSIC_GAIN * loopedMusicSample music i)

/-! ## Playback clock (renderLoop, VideoPreview.tsx lines 409-452) -/

/-- The PlaybackState fields the render loop mutates. -/
structure PlaybackState where
  isPlaying : Bool
  currentTime : ℚ
  progress : ℚ
  currentSegmentIndex : ℕ
deriving DecidableEq

/-- One tick of the playback `renderLoop` (VideoPreview.tsx lines
409-429): when the elapsed time reaches the total duration the clock
stops, the cursor is set to the total duration and progress to 100;
otherwise the cursor, progress and active scene index are updated. -/
def renderLoopTick (segmentDurations : List ℚ) (st : PlaybackState)
    (elapsed : ℚ) : PlaybackState :=
  let totalDuration := segmentDurations.sum
  if elapsed ≥ totalDuration then
    { st with isPlaying := false, currentTime := totalDuration, progress := 100 }
  else
    { st with
        currentTime := elapsed,
        progress := elapsed / totalDuration * 100,
        currentSegmentIndex := (resolveActiveScene segmentDurations elapsed).1 }

/-! ## Spec-side definitions (for comparison against the code) -/

/-- Modelled from the spec: the caption word count the spec claims,
`floor(localTime / (sceneDuration / wordCount)) + 1`; no such
computation exists in `drawCaption`. -/
def specCaptionWordCount (localTime sceneDuration : ℚ) (wordCount : ℕ) : ℤ :=
  ⌊localTime / (sceneDuration / (wordCount : ℚ))⌋ + 1

/-- Modelled from the spec: the exit eased progress, "computed the same
way" as the entrance progress; `drawScene` never reads the `exit`
field, so this quantity appears nowhere in the code. -/
def specExitEasedProgress (animation : ElementAnimation) (time : ℚ) : ℚ :=
  match animation.exit with
  | none => 0
  | some ex => easeInOutCubic (clamp01 ((time - ex.start) / ex.duration))

/-! ## Timing lemmas -/

/-- A list of nonnegative rationals has nonnegative entries under `getD 0`. -/
lemma getD_nonneg (l : List ℚ) (i : ℕ) (h : ∀ d ∈ l, 0 ≤ d) : 0 ≤ l.getD i 0 := by
  induction l generalizing i with
  | nil => simp [List.getD]
  | cons a t ih =>
    cases i with
    | zero => exact h a (by simp)
    | succ j =>
      simpa using ih j (fun d hd => h d (by simp [hd]))

/-- Stepping the cumulative-duration prefix sum by one scene. -/
lemma cumulativeDurationBefore_succ (l : List ℚ) (j : ℕ) :
    cumulativeDurationBefore l (j + 1) = cumulativeDurationBefore l j + l.getD j 0 := by
  induction l generalizing j with
  | nil => simp [cumulativeDurationBefore, List.getD]
  | cons a t ih =>
    cases j with
    | zero => simp [cumulativeDurationBefore]
    | succ k =>
      have h1 : cumulativeDurationBefore (a :: t) (k + 1 + 1)
          = a + cumulativeDurationBefore t (k + 1) := by
        simp [cumulativeDurationBefore]
      have h2 : cumulativeDurationBefore (a :: t) (k + 1)
          = a + cumulativeDurationBefore t k := by
        simp [cumulativeDurationBefore]
      have h3 : (a :: t).getD (k + 1) 0 = t.getD k 0 := rfl
      rw [h1, h2, h3, ih k]
      ring

/-- The cumulative-duration prefix sum is monotone for nonnegative durations. -/
lemma cumulativeDurationBefore_mono (l : List ℚ) (h : ∀ d ∈ l, 0 ≤ d) :
    Monotone (cumulativeDurationBefore l) := by
  apply monotone_nat_of_le_succ
  intro j
  rw [cumulativeDurationBefore_succ]
  have := getD_nonneg l j h
  linarith

/-- The scene-resolution loop, run from an arbitrary starting index and
accumulated start time, stops at the first scene whose half-open
interval contains the elapsed time. -/
lemma resolveSceneAux_spec (t : ℚ) (l : List ℚ) (i0 : ℕ) (start : ℚ)
    (hnn : ∀ d ∈ l, 0 ≤ d) (h1 : start ≤ t) (h2 : t < start + l.sum) :
    ∃ k, k < l.length ∧
      resolveSceneAux t l i0 start = (i0 + k, t - (start + (l.take k).sum)) ∧
      start + (l.take k).sum ≤ t ∧
      t < start + (l.take k).sum + l.getD k 0 := by
  induction l generalizing i0 start with
  | nil =>
    exfalso
    simp only [List.sum_nil, add_zero] at h2
    linarith
  | cons d rest ih =>
    by_cases hd : t < start + d
    · refine ⟨0, by simp, ?_, ?_, ?_⟩
      · simp [resolveSceneAux, hd]
      · simpa using h1
      · simpa [List.getD] using hd
    · push_neg at hd
      have hrest : ∀ x ∈ rest, 0 ≤ x := fun x hx => hnn x (by simp [hx])
      have h2' : t < (start + d) + rest.sum := by
        simp only [List.sum_cons] at h2
        linarith
      obtain ⟨k, hk, heq, hge, hlt⟩ := ih (i0 + 1) (start + d) hrest hd h2'
      refine ⟨k + 1, by simpa using hk, ?_, ?_, ?_⟩
      · have hstep : resolveSceneAux t (d :: rest) i0 start
            = resolveSceneAux t rest (i0 + 1) (start + d) := by
          simp [resolveSceneAux, not_lt.mpr hd]
        rw [hstep, heq]
        have hs : (List.take (k + 1) (d :: rest)).sum = d + (List.take k rest).sum := by
          simp
        simp only [Prod.mk.injEq, hs]
        exact ⟨by omega, by ring⟩
      · have hs : (List.take (k + 1) (d :: rest)).sum = d + (List.take k rest).sum := by
          simp
        rw [hs]
        linarith
      · have hs : (List.take (k + 1) (d :: rest)).sum = d + (List.take k rest).sum := by
          simp
        have h3 : (d :: rest).getD (k + 1) 0 = rest.getD k 0 := rfl
        rw [hs, h3]
        linarith

/-- C1: for every scene list with nonnegative per-scene durations and
every elapsed time `t` in `[0, totalDuration)`, the active-scene
resolution loop selects exactly one scene index `i` with
`cumulativeDurationBefore i ≤ t < cumulativeDurationBefore i + duration i`
(existence and uniqueness below); boundary times resolve to the later
scene and a zero-duration scene is never selected (its selected duration
is strictly positive); the scene-local time is `t` minus the cumulative
duration before the selected scene. -/
theorem resolveActiveScene_correct (segmentDurations : List ℚ) (t : ℚ)
    (hnn : ∀ d ∈ segmentDurations, 0 ≤ d) (ht0 : 0 ≤ t)
    (ht : t < segmentDurations.sum) :
    (resolveActiveScene segmentDurations t).1 < segmentDurations.length ∧
    cumulativeDurationBefore segmentDurations (resolveActiveScene segmentDurations t).1 ≤ t ∧
    t < cumulativeDurationBefore segmentDurations (resolveActiveScene segmentDurations t).1
        + segmentDurations.getD (resolveActiveScene segmentDurations t).1 0 ∧
    0 < segmentDurations.getD (resolveActiveScene segmentDurations t).1 0 ∧
    (resolveActiveScene segmentDurations t).2
      = t - cumulativeDurationBefore segmentDurations (resolveActiveScene segmentDurations t).1 ∧
    (∀ j, cumulativeDurationBefore segmentDurations j ≤ t →
      t < cumulativeDurationBefore segmentDurations j + segmentDurations.getD j 0 →
      j = (resolveActiveScene segmentDurations t).1) := by
  have h2 : t < 0 + segmentDurations.sum := by linarith
  obtain ⟨k, hk, heq, hge, hlt⟩ :=
    resolveSceneAux_spec t segmentDurations 0 0 hnn ht0 h2
  have hres : resolveActiveScene segmentDurations t
      = (k, t - (segmentDurations.take k).sum) := by
    rw [resolveActiveScene, heq]
    simp
  have hfst : (resolveActiveScene segmentDurations t).1 = k := by rw [hres]
  have hcum : cumulativeDurationBefore segmentDurations k
      = (segmentDurations.take k).sum := rfl
  have hge' : cumulativeDurationBefore segmentDurations k ≤ t := by
    rw [hcum]; linarith
  have hlt' : t < cumulativeDurationBefore segmentDurations k
      + segmentDurations.getD k 0 := by
    rw [hcum]; linarith
  refine ⟨by rw [hfst]; exact hk, by rw [hfst]; exact hge', by rw [hfst]; exact hlt',
    ?_, ?_, ?_⟩
  · rw [hfst]
    linarith [hge', hlt']
  · rw [hres, hcum]
  · intro j hj1 hj2
    rw [hfst]
    by_contra hne
    rcases lt_or_gt_of_ne hne with hjk | hjk
    · have hsucc : cumulativeDurationBefore segmentDurations (j + 1) ≤
          cumulativeDurationBefore segmentDurations k :=
        cumulativeDurationBefore_mono segmentDurations hnn hjk
      rw [cumulativeDurationBefore_succ] at hsucc
      linarith
    · have hsucc : cumulativeDurationBefore segmentDurations (k + 1) ≤
          cumulativeDurationBefore segmentDurations j :=
        cumulativeDurationBefore_mono segmentDurations hnn hjk
      rw [cumulativeDurationBefore_succ] at hsucc
      linarith

/-- Witness for C1 at durations `[2, 0, 3]` and boundary time `t = 2`:
the loop selects scene 2 (the later scene, skipping the zero-duration
scene 1), whose duration is strictly positive. -/
theorem resolveActiveScene_correct_witness :
    (resolveActiveScene [2, 0, 3] 2).1 = 2 ∧
    0 < ([2, 0, 3] : List ℚ).getD (resolveActiveScene [2, 0, 3] 2).1 0 := by
  have hnn : ∀ d ∈ ([2, 0, 3] : List ℚ), 0 ≤ d := by
    intro d hd
    fin_cases hd <;> norm_num
  have h := resolveActiveScene_correct [2, 0, 3] 2 hnn (by norm_num) (by norm_num)
  exact ⟨by norm_num [resolveActiveScene, resolveSceneAux], h.2.2.2.1⟩

/-! ## Easing lemmas -/

lemma clamp01_nonneg (v : ℚ) : 0 ≤ clamp01 v := le_max_left _ _

lemma clamp01_le_one (v : ℚ) : clamp01 v ≤ 1 :=
  max_le (by norm_num) (min_le_left _ _)

lemma clamp01_mono {a b : ℚ} (h : a ≤ b) : clamp01 a ≤ clamp01 b :=
  max_le_max le_rfl (min_le_min le_rfl h)

/-- The cubic ease-in-out is monotone on `[0, 1]`. -/
lemma easeInOutCubic_mono {x y : ℚ} (hx : 0 ≤ x) (hxy : x ≤ y) (hy : y ≤ 1) :
    easeInOutCubic x ≤ easeInOutCubic y := by
  unfold easeInOutCubic
  by_cases h1 : x < 1/2 <;> by_cases h2 : y < 1/2 <;> simp only [h1, h2, if_true, if_false]
  · have h3 : x ^ 3 ≤ y ^ 3 := pow_le_pow_left₀ hx hxy 3
    linarith
  · push_neg at h2
    have hx3 : x ^ 3 ≤ (1/2 : ℚ) ^ 3 := pow_le_pow_left₀ hx (le_of_lt h1) 3
    have h0 : (0 : ℚ) ≤ -2 * y + 2 := by linarith
    have hle : (-2 * y + 2 : ℚ) ≤ 1 := by linarith
    have hy3 : (-2 * y + 2 : ℚ) ^ 3 ≤ 1 := pow_le_one₀ h0 hle
    norm_num at hx3
    linarith
  · push_neg at h1
    linarith
  · push_neg at h1 h2
    have h0 : (0 : ℚ) ≤ -2 * y + 2 := by linarith
    have hab : (-2 * y + 2 : ℚ) ≤ -2 * x + 2 := by linarith
    have h3 : (-2 * y + 2 : ℚ) ^ 3 ≤ (-2 * x + 2) ^ 3 := pow_le_pow_left₀ h0 hab 3
    linarith

/-- The `globalAlpha` assigned for a fade-in element (VideoPreview.tsx
lines 114-115): the eased cubic of the clamped entrance progress. -/
def fadeInOpacity (animation : ElementAnimation) (time : ℚ) : ℚ :=
  easeInOutCubic (entranceProgress animation time)

/-- Every command of a `drawWrappedText` call carries the alpha it was
called with. -/
lemma alphaOf_mem_drawWrappedText {measure : List String → ℚ} {alpha : ℚ}
    {text : String} {x y mw lh : ℚ} {va : Option VerticalAlignKind} {cmd : DrawCmd}
    (h : cmd ∈ drawWrappedText measure alpha text x y mw lh va) :
    cmd.alphaOf = alpha := by
  simp only [drawWrappedText, List.mem_map] at h
  obtain ⟨p, _, rfl⟩ := h
  rfl

/-- C7: for every element with a fade-in entrance of positive duration,
the drawn opacity is 0 at `t = entrance.start`, is monotone
non-decreasing on `[entrance.start, entrance.start + entrance.duration]`,
reaches 1 at `t = entrance.start + entrance.duration`, every command the
renderer emits for the element carries exactly that opacity, and for
every time whose clamped progress is `≤ 0` the element is not drawn at
all (the renderer emits no command for it). -/
theorem fadeIn_entrance_opacity (animation : ElementAnimation)
    (hfade : animation.type = EntranceKind.fadeIn)
    (hdur : 0 < animation.duration) :
    fadeInOpacity animation animation.start = 0 ∧
    (∀ t1 t2, animation.start ≤ t1 → t1 ≤ t2 →
      t2 ≤ animation.start + animation.duration →
      fadeInOpacity animation t1 ≤ fadeInOpacity animation t2) ∧
    fadeInOpacity animation (animation.start + animation.duration) = 1 ∧
    (∀ cw ch images measure ctxAlpha idx element t cmd,
      element.animation = animation →
      cmd ∈ drawElement cw ch images measure ctxAlpha idx element t →
      cmd.alphaOf = fadeInOpacity animation t) ∧
    (∀ cw ch images measure ctxAlpha idx element t,
      element.animation = animation →
      entranceProgress animation t ≤ 0 →
      drawElement cw ch images measure ctxAlpha idx element t = []) := by
  have hne := ne_of_gt hdur
  refine ⟨?_, ?_, ?_, ?_, ?_⟩
  · simp [fadeInOpacity, entranceProgress, clamp01, easeInOutCubic]
  · intro t1 t2 ht1 ht12 ht2
    exact easeInOutCubic_mono (clamp01_nonneg _)
      (clamp01_mono (by gcongr)) (clamp01_le_one _)
  · have h1 : entranceProgress animation (animation.start + animation.duration) = 1 := by
      simp [entranceProgress, clamp01, div_self hne]
    rw [fadeInOpacity, h1]
    norm_num [easeInOutCubic]
  · intro cw ch images measure ctxAlpha idx element t cmd hE hcmd
    by_cases hp : entranceProgress animation t ≤ 0
    · simp [drawElement, hE, hp] at hcmd
    · simp only [drawElement, hE, hp, if_false] at hcmd
      rw [hfade] at hcmd
      rcases helt : element.type with _ | _
      · rw [helt] at hcmd
        rcases him : images element.id with _ | dims
        · simp [him] at hcmd
        · simp only [him] at hcmd
          simp only [List.mem_singleton] at hcmd
          subst hcmd
          rfl
      · rw [helt] at hcmd
        rcases htxt : element.text with _ | txt
        · simp [htxt] at hcmd
        · simp only [htxt] at hcmd
          exact alphaOf_mem_drawWrappedText hcmd
  · intro cw ch images measure ctxAlpha idx element t hE hp
    simp [drawElement, hE, hp]

/-- Witness for C7 at a fade-in entrance starting at 2 with duration 4,
evaluated at the endpoints and at a pre-start time. -/
theorem fadeIn_entrance_opacity_witness :
    fadeInOpacity ⟨EntranceKind.fadeIn, 2, 4, none⟩ 2 = 0 ∧
    fadeInOpacity ⟨EntranceKind.fadeIn, 2, 4, none⟩ (2 + 4) = 1 ∧
    drawElement 1280 720 (fun _ => none) (fun _ => 0) 1 0
      ⟨"e1", ElementKind.image, none, {}, ⟨0, 0, 100, 100⟩,
        ⟨EntranceKind.fadeIn, 2, 4, none⟩⟩ 1 = [] := by
  have h := fadeIn_entrance_opacity ⟨EntranceKind.fadeIn, 2, 4, none⟩ rfl (by norm_num)
  refine ⟨h.1, h.2.2.1, ?_⟩
  apply h.2.2.2.2 1280 720 (fun _ => none) (fun _ => 0) 1 0 _ 1 rfl
  norm_num [entranceProgress, clamp01]

/-- C8: whenever the elapsed time of a playback tick reaches the total
duration, the render loop stops the clock (`isPlaying` becomes false)
and sets the time cursor to the total duration — the end, not zero —
with progress 100%. -/
theorem renderLoopTick_stops_at_end (segmentDurations : List ℚ)
    (st : PlaybackState) (elapsed : ℚ)
    (h : elapsed ≥ segmentDurations.sum) :
    (renderLoopTick segmentDurations st elapsed).isPlaying = false ∧
    (renderLoopTick segmentDurations st elapsed).currentTime = segmentDurations.sum ∧
    (renderLoopTick segmentDurations st elapsed).progress = 100 := by
  simp [renderLoopTick, h]

/-- Witness for C8: a tick at elapsed time 7 against durations `[3, 4]`
during playback. -/
theorem renderLoopTick_stops_at_end_witness :
    (renderLoopTick [3, 4] ⟨true, 5, 70, 1⟩ 7).isPlaying = false ∧
    (renderLoopTick [3, 4] ⟨true, 5, 70, 1⟩ 7).currentTime = ([3, 4] : List ℚ).sum ∧
    (renderLoopTick [3, 4] ⟨true, 5, 70, 1⟩ 7).progress = 100 :=
  renderLoopTick_stops_at_end [3, 4] ⟨true, 5, 70, 1⟩ 7 (by norm_num)

/-- C9: the Layout-V2 frame renderer is deterministic — two invocations
of `drawV2Frame` with identical arguments (scene, scene-local time,
image map, voiceover map, next scene, next-scene time, canvas size and
text measure) issue identical draw-command lists, which rasterize to
byte-identical output.  The embedding exhibits the frame as a pure
function of exactly these arguments: the source (VideoPreview.tsx lines
82-204) reads no wall clock and no randomness. -/
theorem drawV2Frame_deterministic (canvasWidth canvasHeight : ℚ)
    (images : String → Option (ℚ × ℚ)) (voiceoverDurations : String → Option ℚ)
    (measure : List String → ℚ) (scene : ScriptSegmentV2) (timeIntoScene : ℚ)
    (nextScene : Option ScriptSegmentV2) (nextSceneTime : ℚ) :
    drawV2Frame canvasWidth canvasHeight images voiceoverDurations measure
        scene timeIntoScene nextScene nextSceneTime
      = drawV2Frame canvasWidth canvasHeight images voiceoverDurations measure
        scene timeIntoScene nextScene nextSceneTime := rfl

/-- Distinct indices below 6 pick distinct entries of the class list. -/
lemma animationClasses_getD_inj :
    ∀ a b : Fin 6, a ≠ b →
      animationClasses.getD a.val "" ≠ animationClasses.getD b.val "" := by
  decide

/-- C10: adjacent scenes never share a Ken-Burns animation: the
round-robin keys of scenes `i` and `i+1` always differ by 3 or 4
modulo 6, never 0, so the selected class strings differ. -/
theorem sceneAnimation_adjacent_distinct (i : ℕ) :
    sceneAnimation i ≠ sceneAnimation (i + 1) ∧
    ((kenBurnsKey (i + 1) + 6 - kenBurnsKey i) % 6 = 3 ∨
     (kenBurnsKey (i + 1) + 6 - kenBurnsKey i) % 6 = 4) := by
  have hlen : animationClasses.length = 6 := rfl
  have hkey : ∀ j, kenBurnsKey j = (j * 3 + j / 6) % 6 := by
    intro j
    rw [kenBurnsKey, hlen]
  have hcore : kenBurnsKey (i + 1) ≠ kenBurnsKey i ∧
      ((kenBurnsKey (i + 1) + 6 - kenBurnsKey i) % 6 = 3 ∨
       (kenBurnsKey (i + 1) + 6 - kenBurnsKey i) % 6 = 4) := by
    rw [hkey, hkey]
    have h6 := Nat.div_add_mod i 6
    have hr : i % 6 < 6 := Nat.mod_lt _ (by norm_num)
    interval_cases h : i % 6 <;> omega
  have hk1 : kenBurnsKey i < 6 := by
    rw [hkey]
    omega
  have hk2 : kenBurnsKey (i + 1) < 6 := by
    rw [hkey]
    omega
  refine ⟨?_, hcore.2⟩
  have := animationClasses_getD_inj ⟨kenBurnsKey i, hk1⟩ ⟨kenBurnsKey (i + 1), hk2⟩
    (by simpa [Fin.ext_iff] using (Ne.symm hcore.1))
  simpa [sceneAnimation] using this

/-- Start offsets of the offline narration render: a scheduled buffer
starts at the sum of the durations of the preceding buffers, with the
accumulator generalized. -/
lemma narrationStartsAux_getD (voiceoverBuffers : List (Option ℚ)) (cur : ℚ) (i : ℕ)
    (hs : (voiceoverBuffers.getD i none).isSome) :
    (narrationStartsAux voiceoverBuffers cur).getD i none
      = some (cur + totalDurationOf (voiceoverBuffers.take i)) := by
  induction voiceoverBuffers generalizing cur i with
  | nil => simp [List.getD] at hs
  | cons b rest ih =>
    cases i with
    | zero =>
      cases b with
      | none => simp [List.getD] at hs
      | some d => simp [narrationStartsAux, List.getD, totalDurationOf, segmentDurationsOf]
    | succ j =>
      have hs' : (rest.getD j none).isSome := by
        simpa [List.getD] using hs
      cases b with
      | none =>
        have := ih cur j hs'
        simpa [narrationStartsAux, List.getD, totalDurationOf, segmentDurationsOf]
          using this
      | some d =>
        have := ih (cur + d) j hs'
        simp only [narrationStartsAux, List.getD, List.get?_cons_succ] at this ⊢
        rw [this]
        simp only [List.take_succ_cons, totalDurationOf, segmentDurationsOf,
          List.map_cons, List.sum_cons, Option.some.injEq, Option.getD_some]
        ring

/-- C3: the offline audio mix.  The narration pass renders into a buffer
of `ceil(totalDuration * sampleRate)` samples — the sum of the narration
durations at the configured sample rate, within one sample of rounding,
and exactly `7 * 24000` samples for buffers of 3s and 4s at 24 kHz; each
narration buffer is scheduled at the sum of the durations of the
preceding buffers; when background music is selected the mixed buffer
has exactly the narration buffer's length, and each sample adds the
music — looped over its own length — at the fixed gain `MUSIC_GAIN = 0.2`. -/
theorem mixAudio_correct (sampleRate : ℕ) (voiceoverBuffers : List (Option ℚ))
    (narrationSamples music : List ℚ)
    (hnn : 0 ≤ totalDurationOf voiceoverBuffers) :
    totalDurationOf voiceoverBuffers * sampleRate
      ≤ (voiceoverContextLength voiceoverBuffers sampleRate : ℚ) ∧
    (voiceoverContextLength voiceoverBuffers sampleRate : ℚ)
      < totalDurationOf voiceoverBuffers * sampleRate + 1 ∧
    voiceoverContextLength [some 3, some 4] 24000 = 7 * 24000 ∧
    (∀ i, (voiceoverBuffers.getD i none).isSome →
      (narrationStarts voiceoverBuffers).getD i none
        = some (totalDurationOf (voiceoverBuffers.take i))) ∧
    (mixWithMusic narrationSamples music).length = narrationSamples.length ∧
    (∀ i, i < narrationSamples.length →
      (mixWithMusic narrationSamples music).getD i 0
        = narrationSamples.getD i 0
          + MUSIC_GAIN * music.getD (i % music.length) 0) := by
  refine ⟨Nat.le_ceil _, ?_, ?_, ?_, by simp [mixWithMusic], ?_⟩
  · exact Nat.ceil_lt_add_one (mul_nonneg hnn (by positivity))
  · have h7 : totalDurationOf [some 3, some 4] * (24000 : ℕ) = ((168000 : ℕ) : ℚ) := by
      norm_num [totalDurationOf, segmentDurationsOf]
    rw [voiceoverContextLength, h7, Nat.ceil_natCast]
  · intro i hs
    have := narrationStartsAux_getD voiceoverBuffers 0 i hs
    simpa [narrationStarts] using this
  · intro i hi
    rw [mixWithMusic, List.getD_eq_getElem?_getD, List.getElem?_map,
      List.getElem?_range hi]
    rfl

/-- Witness for C3 at buffers `[3s, 4s]`, 24 kHz, narration samples
`[2, 3]` and music samples `[1, 2]`: total length `168000` samples, the
second narration scheduled at offset 3s, and the mixed track as long as
the narration track. -/
theorem mixAudio_correct_witness :
    voiceoverContextLength [some 3, some 4] 24000 = 7 * 24000 ∧
    (narrationStarts [some 3, some 4]).getD 1 none
      = some (totalDurationOf (([some 3, some 4] : List (Option ℚ)).take 1)) ∧
    (mixWithMusic [2, 3] [1, 2]).length = ([2, 3] : List ℚ).length := by
  have h := mixAudio_correct 24000 [some 3, some 4] [2, 3] [1, 2]
    (by norm_num [totalDurationOf, segmentDurationsOf])
  exact ⟨h.2.2.1, h.2.2.2.1 1 (by simp [List.getD]), h.2.2.2.2.1⟩

/-- The greedy wrap loop distributes every input word into some line:
the produced lines concatenate back to the pending line followed by the
remaining words. -/
lemma wrapWordsAux_flatten (tooWide : List String → Bool) :
    ∀ (ws line : List String) (b : Bool),
      (wrapWordsAux tooWide ws line b).flatten = line ++ ws := by
  intro ws
  induction ws with
  | nil => intro line b; simp [wrapWordsAux]
  | cons w rest ih =>
    intro line b
    rw [wrapWordsAux]
    by_cases h : (tooWide (line ++ [w]) && !b) = true
    · rw [if_pos h]
      simp [ih]
    · rw [if_neg h]
      simp [ih]

/-- C5 counterexample: for the four-word narration "a b c d" of a
4-second scene at scene-local time 0 the claimed formula
`floor(localTime / (sceneDuration / wordCount)) + 1` shows 1 word, but
`drawCaption` (which receives no scene-local time at all) draws all 4
words. -/
theorem drawCaption_word_reveal_counterexample :
    specCaptionWordCount 0 4 4 = 1 ∧
    ((drawCaptionLines (fun _ => 0) 1280 "a b c d").flatten).length = 4 ∧
    (((drawCaptionLines (fun _ => 0) 1280 "a b c d").flatten).length : ℤ)
      ≠ specCaptionWordCount 0 4 4 := by
  have hsplit : splitWords "a b c d" = ["a", "b", "c", "d"] := by decide
  have hcap : (drawCaptionLines (fun _ => (0:ℚ)) 1280 "a b c d").flatten
      = ["a", "b", "c", "d"] := by
    rw [drawCaptionLines, hsplit, wrapWords, wrapWordsAux_flatten]
    rfl
  refine ⟨?_, ?_, ?_⟩
  · norm_num [specCaptionWordCount]
  · simp [hcap]
  · rw [hcap]
    norm_num [specCaptionWordCount]

/-- C5 (amended): at every scene-local time the Layout-V1 export caption
draws every word of the narration (split on spaces) — the wrapped lines
concatenate back to exactly the split narration, wrapped against 90% of
the frame width; `drawCaption` takes no scene-local time, so no
word-by-word reveal occurs. -/
theorem drawCaption_shows_all_words (measure : List String → ℚ)
    (canvasWidth : ℚ) (text : String) :
    (drawCaptionLines measure canvasWidth text).flatten = splitWords text := by
  rw [drawCaptionLines, wrapWords, wrapWordsAux_flatten]
  rfl

/-- C6 counterexample: the pan classes fail both `includes('in')` and
`includes('out')`, so `drawKenBurnsFrame` gives them the constant scale
1.2, outside the claimed `[1.0, 1.15]` — already at progress 0. -/
theorem kenBurns_scale_counterexample :
    "ken-burns-pan-right" ∈ animationClasses ∧
    drawKenBurnsScale "ken-burns-pan-right" 0 = 6/5 ∧
    ¬(drawKenBurnsScale "ken-burns-pan-right" 0 ≤ 23/20) := by
  have h1 : strContains "ken-burns-pan-right" "in" = false := by decide
  have h2 : strContains "ken-burns-pan-right" "out" = false := by decide
  refine ⟨by simp [animationClasses], ?_, ?_⟩
  · simp [drawKenBurnsScale, h1, h2]
  · simp [drawKenBurnsScale, h1, h2]
    norm_num

/-- C6 (amended): for every Ken-Burns class and progress `p ∈ [0, 1]`,
the translate offsets stay within `[-5%, +5%]` of the canvas size; the
scale stays within `[1.0, 1.15]` for the two zoom classes
`ken-burns-in` and `ken-burns-out`, while each of the four pan classes
gets the constant scale `1.2` (the `includes('in')`/`includes('out')`
substring tests both fail on them). -/
theorem kenBurns_frame_bounds (p : ℚ) (h0 : 0 ≤ p) (h1 : p ≤ 1) :
    (∀ a ∈ animationClasses,
      -5 ≤ (drawKenBurnsTranslate a p).1 ∧ (drawKenBurnsTranslate a p).1 ≤ 5 ∧
      -5 ≤ (drawKenBurnsTranslate a p).2 ∧ (drawKenBurnsTranslate a p).2 ≤ 5) ∧
    (1 ≤ drawKenBurnsScale "ken-burns-in" p ∧
      drawKenBurnsScale "ken-burns-in" p ≤ 23/20) ∧
    (1 ≤ drawKenBurnsScale "ken-burns-out" p ∧
      drawKenBurnsScale "ken-burns-out" p ≤ 23/20) ∧
    (∀ a ∈ animationClasses, a ≠ "ken-burns-in" → a ≠ "ken-burns-out" →
      drawKenBurnsScale a p = 6/5) := by
  refine ⟨?_, ?_, ?_, ?_⟩
  · intro a ha
    fin_cases ha
    · refine ⟨?_, ?_, ?_, ?_⟩ <;>
        · simp [drawKenBurnsTranslate,
            show strContains "ken-burns-in" "pan-right" = false from by decide,
            show strContains "ken-burns-in" "pan-left" = false from by decide,
            show strContains "ken-burns-in" "pan-up" = false from by decide,
            show strContains "ken-burns-in" "pan-down" = false from by decide]
    · refine ⟨?_, ?_, ?_, ?_⟩ <;>
        · simp [drawKenBurnsTranslate,
            show strContains "ken-burns-out" "pan-right" = false from by decide,
            show strContains "ken-burns-out" "pan-left" = false from by decide,
            show strContains "ken-burns-out" "pan-up" = false from by decide,
            show strContains "ken-burns-out" "pan-down" = false from by decide]
    · refine ⟨?_, ?_, ?_, ?_⟩ <;>
          simp [drawKenBurnsTranslate,
              show strContains "ken-burns-pan-right" "pan-right" = true from by decide,
              show strContains "ken-burns-pan-right" "pan-left" = false from by decide,
              show strContains "ken-burns-pan-right" "pan-up" = false from by decide,
              show strContains "ken-burns-pan-right" "pan-down" = false from by decide] <;>
          linarith
    · refine ⟨?_, ?_, ?_, ?_⟩ <;>
          simp [drawKenBurnsTranslate,
              show strContains "ken-burns-pan-up" "pan-right" = false from by decide,
              show strContains "ken-burns-pan-up" "pan-left" = false from by decide,
              show strContains "ken-burns-pan-up" "pan-up" = true from by decide,
              show strContains "ken-burns-pan-up" "pan-down" = false from by decide] <;>
          linarith
    · refine ⟨?_, ?_, ?_, ?_⟩ <;>
          simp [drawKenBurnsTranslate,
              show strContains "ken-burns-pan-left" "pan-right" = false from by decide,
              show strContains "ken-burns-pan-left" "pan-left" = true from by decide,
              show strContains "ken-burns-pan-left" "pan-up" = false from by decide,
              show strContains "ken-burns-pan-left" "pan-down" = false from by decide] <;>
          linarith
    · refine ⟨?_, ?_, ?_, ?_⟩ <;>
          simp [drawKenBurnsTranslate,
              show strContains "ken-burns-pan-down" "pan-right" = false from by decide,
              show strContains "ken-burns-pan-down" "pan-left" = false from by decide,
              show strContains "ken-burns-pan-down" "pan-up" = false from by decide,
              show strContains "ken-burns-pan-down" "pan-down" = true from by decide] <;>
          linarith
  · constructor <;>
      simp [drawKenBurnsScale,
        show strContains "ken-burns-in" "in" = true from by decide] <;>
      linarith
  · constructor <;>
      simp [drawKenBurnsScale,
        show strContains "ken-burns-out" "in" = false from by decide,
        show strContains "ken-burns-out" "out" = true from by decide] <;>
      linarith
  · intro a ha hni hno
    fin_cases ha
    · exact absurd rfl hni
    · exact absurd rfl hno
    · simp [drawKenBurnsScale,
        show strContains "ken-burns-pan-right" "in" = false from by decide,
        show strContains "ken-burns-pan-right" "out" = false from by decide]
    · simp [drawKenBurnsScale,
        show strContains "ken-burns-pan-up" "in" = false from by decide,
        show strContains "ken-burns-pan-up" "out" = false from by decide]
    · simp [drawKenBurnsScale,
        show strContains "ken-burns-pan-left" "in" = false from by decide,
        show strContains "ken-burns-pan-left" "out" = false from by decide]
    · simp [drawKenBurnsScale,
        show strContains "ken-burns-pan-down" "in" = false from by decide,
        show strContains "ken-burns-pan-down" "out" = false from by decide]

/-- Witness for C6 (amended) at progress `p = 1/2`. -/
theorem kenBurns_frame_bounds_witness :
    (1 ≤ drawKenBurnsScale "ken-burns-in" (1/2) ∧
      drawKenBurnsScale "ken-burns-in" (1/2) ≤ 23/20) ∧
    drawKenBurnsScale "ken-burns-pan-right" (1/2) = 6/5 := by
  have h := kenBurns_frame_bounds (1/2) (by norm_num) (by norm_num)
  exact ⟨h.2.1, h.2.2.2 "ken-burns-pan-right" (by simp [animationClasses])
    (by decide) (by decide)⟩

/-- C4: evaluation at the failing input.  The element's exit animation
(fade-out over `[1, 2]`) has eased exit progress 1 at scene-local time 3
— per the claim the element must be skipped — yet `drawElement`
(the body of `drawScene`, which never reads the `exit` field) still
emits its draw command, at full alpha. -/
theorem exit_animation_ignored_eval :
    specExitEasedProgress ⟨EntranceKind.fadeIn, 0, 1,
      some ⟨ExitKind.fadeOut, 1, 1⟩⟩ 3 = 1 ∧
    drawElement 1280 720 (fun _ => some (160, 90)) (fun _ => 0) 1 0
      ⟨"bg", ElementKind.image, none, {}, ⟨0, 0, 100, 100⟩,
        ⟨EntranceKind.fadeIn, 0, 1, some ⟨ExitKind.fadeOut, 1, 1⟩⟩⟩ 3
      = [DrawCmd.image "bg" 1 0 0 1280 720] := by
  constructor
  · norm_num [specExitEasedProgress, clamp01, easeInOutCubic]
  · norm_num [drawElement, entranceProgress, clamp01, easeInOutCubic]

/-- A full-frame background element whose slide-in entrance has already
completed at every scene-local time of interest. -/
def crossfadeElement (imageId : String) : SceneElement :=
  ⟨imageId, ElementKind.image, none, {}, ⟨0, 0, 100, 100⟩,
    ⟨EntranceKind.slideInLeft, -1, 1, none⟩⟩

/-- The outgoing 3-second scene of the crossfade example. -/
def crossfadeSceneA : ScriptSegmentV2 := ⟨"a", "first", [crossfadeElement "imA"]⟩

/-- The incoming 4-second scene of the crossfade example. -/
def crossfadeSceneB : ScriptSegmentV2 := ⟨"b", "second", [crossfadeElement "imB"]⟩

/-- Voiceover durations of the crossfade example: scene "a" 3s, scene "b" 4s. -/
def crossfadeDurations : String → Option ℚ :=
  fun id => if id = "a" then some 3 else if id = "b" then some 4 else none

/-- C2 counterexample: for scenes of 3s and 4s at global time t = 2.8s
(timeUntilEnd = 0.2s), the Layout-V1 export frame loop draws the
outgoing scene with globalAlpha 1.0 — not the claimed
1 − crossfadeProgress = 0.4 — while the incoming scene gets 0.6. -/
theorem crossfade_alpha_counterexample :
    (frameRenderLoopV1Draws [3, 4] 2 (14/5)).map KenBurnsDraw.alpha = [1, 3/5] ∧
    (1 : ℚ) ≠ 2/5 := by
  constructor
  · norm_num [frameRenderLoopV1Draws, resolveActiveScene, resolveSceneAux,
      TRANSITION_DURATION, sceneAnimation, kenBurnsKey, animationClasses]
  · norm_num

set_option maxHeartbeats 1000000 in
/-- C2 (amended): for consecutive scenes of 3s and 4s with the 0.5s
transition, at t = 2.8s (timeUntilEnd = 0.2s) the V1 export renderer
draws the outgoing scene at alpha 1.0 and the incoming scene (at
progress 0) at alpha crossfadeProgress = 0.6; at t = 2.4s only the
outgoing scene is drawn, at alpha 1.0.  The V2 renderer computes the
same crossfadeProgress = (0.5 − timeUntilEnd)/0.5 = 0.6 for its two
`drawScene` passes, but each element assigns `globalAlpha` afresh
(source line 111), so every element of both scenes is drawn at its
element-level alpha — 1.0 for completed entrances — and at t = 2.4s
only the outgoing scene's elements are drawn, at alpha 1.0. -/
theorem crossfade_alpha_correct :
    frameRenderLoopV1Draws [3, 4] 2 (14/5)
      = [⟨0, 1, 14/15, "ken-burns-in"⟩, ⟨1, 3/5, 0, "ken-burns-pan-up"⟩] ∧
    (frameRenderLoopV1Draws [3, 4] 2 (12/5)).map KenBurnsDraw.alpha = [1] ∧
    (FADE_DURATION - (3 - 14/5)) / FADE_DURATION = 3/5 ∧
    (drawV2Frame 1280 720 (fun _ => some (160, 90)) crossfadeDurations (fun _ => 0)
        crossfadeSceneA (14/5) (some crossfadeSceneB) 0).map DrawCmd.alphaOf
      = [1, 1] ∧
    (drawV2Frame 1280 720 (fun _ => some (160, 90)) crossfadeDurations (fun _ => 0)
        crossfadeSceneA (12/5) (some crossfadeSceneB) 0).map DrawCmd.alphaOf
      = [1] := by
  refine ⟨?_, ?_, ?_, ?_, ?_⟩
  · norm_num [frameRenderLoopV1Draws, resolveActiveScene, resolveSceneAux,
      TRANSITION_DURATION, sceneAnimation, kenBurnsKey, animationClasses]
  · norm_num [frameRenderLoopV1Draws, resolveActiveScene, resolveSceneAux,
      TRANSITION_DURATION, sceneAnimation, kenBurnsKey, animationClasses]
  · norm_num [FADE_DURATION]
  · norm_num [drawV2Frame, drawScene, drawElement, crossfadeSceneA, crossfadeSceneB,
      crossfadeElement, crossfadeDurations, FADE_DURATION, entranceProgress,
      clamp01, easeInOutCubic, List.enum, DrawCmd.alphaOf]
  · norm_num [drawV2Frame, drawScene, drawElement, crossfadeSceneA, crossfadeSceneB,
      crossfadeElement, crossfadeDurations, FADE_DURATION, entranceProgress,
      clamp01, easeInOutCubic, List.enum, DrawCmd.alphaOf]

end Arideo
